import Mathlib

/-
Verification of the INMET CSV-to-NetCDF conversion module (XISIC.py) by a
shallow embedding in Lean.  Each definition is translated from the Python
source: pure string manipulation becomes functions on List Char, the pandas
cell values become an explicit CellVal type, the filesystem seen by the batch
orchestrator becomes an explicit list of existing output names, and Python
exceptions become Except / Option results.
-/

deriving instance DecidableEq for Except

/-! ## Generic string helpers -/

/-- Python `list.startswith`-style prefix test on character lists. -/
def listStartsWith : List Char → List Char → Bool
  | [], _ => true
  | _ :: _, [] => false
  | p :: ps, c :: cs => p = c && listStartsWith ps cs

/-- Python `pat in s` substring containment. -/
def containsSub (pat s : String) : Bool :=
  (List.range (s.data.length + 1)).any fun i => listStartsWith pat.data (s.data.drop i)

/-- Python `str.replace('.CSV', rep)`: scan left to right, replace each
non-overlapping occurrence of the four characters `.CSV` by `rep`.
Specialised to the fixed pattern used by `convert_csvs_to_netcdf`. -/
def replaceTok (rep : List Char) : List Char → List Char
  | '.' :: 'C' :: 'S' :: 'V' :: rest => rep ++ replaceTok rep rest
  | c :: cs => c :: replaceTok rep cs
  | [] => []

/-- Output artifact name for an input file: `filename.replace('.CSV', '.nc')`
(XISIC.py line 719).  The output directory is shared by all files of a batch,
so the name determines the output path. -/
def outName (f : String) : String := ⟨replaceTok ['.', 'n', 'c'] f.data⟩

/-- Python `s.split('_')`: split at every underscore, keeping empty segments,
with `''.split('_') = ['']`. -/
def splitUnderscore : List Char → List (List Char)
  | [] => [[]]
  | c :: cs =>
    match splitUnderscore cs with
    | [] => if c = '_' then [[], []] else [[c]]
    | h :: t => if c = '_' then [] :: h :: t else (c :: h) :: t

/-- Filename segments used by the orchestrator's filter:
`filename.replace('.CSV', '').split('_')` (XISIC.py line 658). -/
def partsOf (f : String) : List String :=
  (splitUnderscore (replaceTok [] f.data)).map (fun l => ⟨l⟩)

/-- Python dict assignment `d[k] = v` on an insertion-ordered association
list: overwriting keeps the key's original position. -/
def dictInsert {α : Type} (k : String) (v : α) : List (String × α) → List (String × α)
  | [] => [(k, v)]
  | p :: rest => if p.1 = k then (k, v) :: rest else p :: dictInsert k v rest

/-- Characters of Python `s.strip()`: drop whitespace at both ends. -/
def stripWsChars (l : List Char) : List Char :=
  ((l.dropWhile Char.isWhitespace).reverse.dropWhile Char.isWhitespace).reverse

/-- Python `s.strip()`. -/
def stripWs (s : String) : String := ⟨stripWsChars s.data⟩

/-- Python `key.replace(':', '')` (XISIC.py lines 283 and 345). -/
def removeColons (s : String) : String := ⟨s.data.filter (fun c => !(c = ':'))⟩

/-! ## Variable-name sanitizer (`clean_variable_names`, XISIC.py lines 128–178) -/

/-- The characters replaced by the chained `str.replace` calls
(XISIC.py lines 150–160). -/
def replacedChars : List Char := ['/', '(', ')', '°', ' ', ',', '-', '.', '²', '³']

/-- Per-character effect of the chained replacements.  The chain of ten
`str.replace` calls on single-character patterns is equivalent to one
simultaneous character map, because no replacement output contains a
pattern character replaced later in the chain. -/
def cleanChar (c : Char) : List Char :=
  if c = '/' then '_' :: 'p' :: 'e' :: 'r' :: ['_']
  else if c = '(' then ['_']
  else if c = ')' then ['_']
  else if c = '°' then 'd' :: 'e' :: ['g']
  else if c = ' ' then ['_']
  else if c = ',' then ['_']
  else if c = '-' then ['_']
  else if c = '.' then ['_']
  else if c = '²' then ['2']
  else if c = '³' then ['3']
  else [c]

/-- Apply the replacements to a whole name. -/
def mapChars (l : List Char) : List Char := (l.map cleanChar).flatten

/-- `re.sub('_+', '_', name)` (XISIC.py line 163): collapse runs of
underscores to a single underscore. -/
def collapseU : List Char → List Char
  | [] => []
  | c :: cs =>
    match collapseU cs with
    | [] => [c]
    | d :: ds => if c = '_' && d = '_' then d :: ds else c :: d :: ds

/-- Drop trailing underscores (the right half of `name.strip('_')`). -/
def dropTrailU : List Char → List Char
  | [] => []
  | c :: cs =>
    match dropTrailU cs with
    | [] => if c = '_' then [] else [c]
    | d :: ds => c :: d :: ds

/-- `name.strip('_')` (XISIC.py line 166). -/
def stripU (l : List Char) : List Char := dropTrailU (l.dropWhile (fun c => c = '_'))

/-- Replacements, underscore collapse and strip, before the final digit and
emptiness guards. -/
def sanitizeCore (l : List Char) : List Char := stripU (collapseU (mapChars l))

/-- Final guards of `clean_variable_names` (XISIC.py lines 169–174):
prefix `var_` when the name starts with a digit, and substitute
`unknown_variable` when it is empty. -/
def finalizeName (r : List Char) : List Char :=
  let pre := match r with
    | [] => ([] : List Char)
    | c :: cs => if c.isDigit then 'v' :: 'a' :: 'r' :: '_' :: c :: cs else c :: cs
  if pre.isEmpty then "unknown_variable".data else pre

/-- Sanitization of one raw variable label. -/
def clean_variable_name (s : String) : String := ⟨finalizeName (sanitizeCore s.data)⟩

/-- `clean_variable_names` (XISIC.py lines 146–178): iterate the raw labels
in order and assign `cleaned_vars[clean_name] = var_data` into a Python dict,
which silently overwrites on key collision. -/
def clean_variable_names {α : Type} (vars : List (String × α)) : List (String × α) :=
  vars.foldl (fun acc p => dictInsert (clean_variable_name p.1) p.2 acc) []

/-- Character class `[A-Za-z0-9_]`. -/
def isIdentChar (c : Char) : Bool := c.isAlpha || c.isDigit || c = '_'

/-- The specification's identifier pattern for sanitized variable names. -/
def matchesIdent (s : String) : Bool :=
  match s.data with
  | [] => false
  | c :: cs => (c.isAlpha || c = '_') && cs.all isIdentChar

/-- Characters the sanitizer handles: ASCII alphanumerics, underscore, and
the ten explicitly replaced characters. -/
def handledChar (c : Char) : Bool :=
  c.isAlpha || c.isDigit || c = '_' || decide (c ∈ replacedChars)

/-- No two adjacent underscores. -/
def noDD : List Char → Bool
  | [] => true
  | [_] => true
  | a :: b :: r => !(a = '_' && b = '_') && noDD (b :: r)

/-! ## Station file reading (`debug_inmet_file` lines 238–302 and the silent
read of `parse_inmet_csv_to_netcdf_robust`, lines 326–345) -/

/-- Per-file fatal error conditions of the model. -/
inductive PErr
  | encodingFailure
  | indexError
  | missingColumns
deriving DecidableEq

/-- The `for enc in candidates: try ... break` loop: the first candidate
encoding that decodes the file, if any.  `decodes e = true` models that
`open(path, encoding=e).readlines()` raises no UnicodeDecodeError. -/
def tryEncodings (cands : List String) (decodes : String → Bool) : Option String :=
  cands.find? decodes

/-- Candidate list of `debug_inmet_file` (XISIC.py line 257). -/
def debugEncodingList : List String := ["latin1", "utf-8"]

/-- Candidate list of the silent read path (XISIC.py line 330). -/
def robustEncodingList : List String := ["cp1252", "latin1", "utf-8"]

/-- The decodability families realizable with CPython's codecs: latin-1 maps
every byte 0x00–0xFF to the character of the same code point and therefore
decodes every byte sequence without error, while whether cp1252 or utf-8
decode depends on the file's bytes and is abstracted by `other`.  Both
candidate lists contain `latin1`, so under this family some candidate always
decodes. -/
def cpDecodes (other : String → Bool) : String → Bool :=
  fun enc => if enc = "latin1" then true else other enc

/-- Encoding phase of `debug_inmet_file` (lines 254–267): the source's
`for`/`else` raises `ValueError` in the no-candidate case.  That arm is a
faithful translation of the source text, but it is unreachable with CPython's
codecs, since latin-1 decodes every byte sequence (see `cpDecodes`). -/
def debugReadEncoding (decodes : String → Bool) : Except PErr String :=
  match tryEncodings debugEncodingList decodes with
  | some e => Except.ok e
  | none => Except.error PErr.encodingFailure

/-- Metadata preamble construction (lines 279–284 and 340–345): for each of
the first eight lines, strip it, split on `;`, and when at least two fields
are present assign `metadata[key.replace(':', '')] = value`. -/
def buildMeta (ls : List String) : List (String × String) :=
  ls.foldl (fun md line =>
    match (stripWs line).splitOn ";" with
    | k :: v :: _ => dictInsert (removeColons k) v md
    | _ => md) []

/-- The metadata loop indexes `lines[0] .. lines[7]`; with fewer than eight
lines it raises IndexError. -/
def extractMetadata (lines : List String) : Except PErr (List (String × String)) :=
  if lines.length < 8 then Except.error PErr.indexError
  else Except.ok (buildMeta (lines.take 8))

/-- Reading phase of the per-file pipeline.  With `debugF = true` it is
`debug_inmet_file`; with `debugF = false` it is the silent read of
`parse_inmet_csv_to_netcdf_robust`.  The no-candidate arms translate the
source's `for`/`else` raise and its `encoding = None`, `lines = []`
initialisation, but they are unreachable with CPython's codecs: latin-1 is
in both candidate lists and decodes every byte sequence, so every realizable
decodability function has the form `cpDecodes other` and always selects some
candidate. -/
def readStationFile (debugF : Bool) (decodes : String → Bool) (lines : List String) :
    Except PErr (String × List (String × String)) :=
  if debugF then
    match debugReadEncoding decodes with
    | Except.error e => Except.error e
    | Except.ok enc =>
      match extractMetadata lines with
      | Except.error e => Except.error e
      | Except.ok md => Except.ok (enc, md)
  else
    match tryEncodings robustEncodingList decodes with
    | some enc =>
      match extractMetadata lines with
      | Except.error e => Except.error e
      | Except.ok md => Except.ok (enc, md)
    | none =>
      match extractMetadata ([] : List String) with
      | Except.error e => Except.error e
      | Except.ok md => Except.ok ("", md)

/-! ## Essential columns (XISIC.py lines 403–418) -/

/-- Column renaming: a header containing `Data` becomes `date`; otherwise a
header containing both `Hora` and `UTC` becomes `hour_utc`. -/
def renameCol (c : String) : String :=
  if containsSub "Data" c then "date"
  else if containsSub "Hora" c && containsSub "UTC" c then "hour_utc"
  else c

/-- The check `if 'date' not in df.columns or 'hour_utc' not in df.columns:
raise ValueError(...)` (lines 417–418). -/
def checkEssentialColumns (cols : List String) : Except PErr Unit :=
  let renamed := cols.map renameCol
  if ("date" : String) ∈ renamed ∧ ("hour_utc" : String) ∈ renamed then Except.ok ()
  else Except.error PErr.missingColumns

/-- The date role is identified in the header by substring match. -/
def dateRoleIdentified (cols : List String) : Bool :=
  cols.any fun c => containsSub "Data" c

/-- The hour role is identified in the header by substring match. -/
def hourRoleIdentified (cols : List String) : Bool :=
  cols.any fun c => containsSub "Hora" c && containsSub "UTC" c

/-! ## Station identity and coordinates (XISIC.py lines 347–366) -/

/-- Digit-string value. -/
def digitsVal (l : List Char) : Nat := l.foldl (fun a c => a * 10 + (c.toNat - 48)) 0

/-- Unsigned decimal number: digits, optionally a point and more digits,
with at least one digit overall. -/
def parseUnsigned (l : List Char) : Option Rat :=
  let ip := l.takeWhile Char.isDigit
  let rest := l.dropWhile Char.isDigit
  match rest with
  | [] => if ip.isEmpty then none else some ((digitsVal ip : Int) : Rat)
  | '.' :: fr =>
    if fr.all Char.isDigit && !(ip.isEmpty && fr.isEmpty) then
      some ((digitsVal ip : Rat) + (digitsVal fr : Rat) / ((10 : Rat) ^ fr.length))
    else none
  | _ => none

/-- Model of Python `float(s)` on the decimal strings appearing in station
preambles: surrounding whitespace is ignored, an optional sign precedes
digits with an optional fractional part.  (The exotic corners of Python's
float grammar — exponents, inf/nan, underscores — are not exercised by the
code's inputs and are modelled as unparsable.) -/
def pyFloat (s : String) : Option Rat :=
  match stripWsChars s.data with
  | '-' :: rest => (parseUnsigned rest).map Neg.neg
  | '+' :: rest => parseUnsigned rest
  | l => parseUnsigned l

/-- Python `s.replace(',', '.')`. -/
def commaToDot (s : String) : String := ⟨s.data.map (fun c => if c = ',' then '.' else c)⟩

/-- `float(metadata[KEY].replace(',', '.'))` (XISIC.py lines 364–366). -/
def parseCoord (s : String) : Option Rat := pyFloat (commaToDot s)

/-- Python dict lookup `md[k]` as an Option. -/
def lookupMeta (md : List (String × String)) (k : String) : Option String :=
  (md.find? (fun p => p.1 == k)).map Prod.snd

/-- Python `md.get(k, dflt)`. -/
def getDMeta (md : List (String × String)) (k dflt : String) : String :=
  (lookupMeta md k).getD dflt

/-- Station identity extracted by the per-file pipeline. -/
structure StationIdentity where
  region : String
  uf : String
  wmo : String
  station : String
  lat : Rat
  lon : Rat
  alt : Rat
deriving DecidableEq

/-- Identity extraction (XISIC.py lines 347–366): region/UF/WMO/station come
from the filename when it has at least five underscore-delimited segments and
from the metadata preamble otherwise; latitude, longitude and altitude always
come from the preamble keys, where a missing key (KeyError) or an unparsable
value (ValueError) is fatal and is modelled as `none`. -/
def extractIdentity (fileParts : List String) (md : List (String × String)) :
    Option StationIdentity :=
  let idQuad : String × String × String × String :=
    if 5 ≤ fileParts.length then
      (fileParts.getD 1 "", fileParts.getD 2 "", fileParts.getD 3 "", fileParts.getD 4 "")
    else
      (getDMeta md "REGIAO" "Unknown", getDMeta md "UF" "Unknown",
       getDMeta md "CODIGO (WMO)" "Unknown", getDMeta md "ESTACAO" "Unknown")
  match (lookupMeta md "LATITUDE").bind parseCoord with
  | none => none
  | some la =>
    match (lookupMeta md "LONGITUDE").bind parseCoord with
    | none => none
    | some lo =>
      match (lookupMeta md "ALTITUDE").bind parseCoord with
      | none => none
      | some al => some ⟨idQuad.1, idQuad.2.1, idQuad.2.2.1, idQuad.2.2.2, la, lo, al⟩

/-! ## Grid assembly (XISIC.py lines 447–493) -/

/-- A raw cell value after pandas loading: a missing value (empty, NULL or
the -9999 sentinel), a value that parses as a number, or an unparsable
value for which `float(value)` raises. -/
inductive CellVal
  | missing
  | num (v : Int)
  | bad
deriving DecidableEq

/-- A surviving data row: resolved date and hour components plus the cell
values of the retained variable columns. -/
structure Row where
  date : Nat
  hour : Nat
  cells : List CellVal
deriving DecidableEq

/-- `sorted(df['date_only'].unique())` (XISIC.py line 452). -/
def datesOf (rows : List Row) : List Nat :=
  List.insertionSort (· ≤ ·) (rows.map Row.date).dedup

/-- `sorted(df['hour_only'].unique())` (XISIC.py line 453). -/
def hoursOf (rows : List Row) : List Nat :=
  List.insertionSort (· ≤ ·) (rows.map Row.hour).dedup

/-- One grid cell (XISIC.py lines 475–485): take the first row matching the
date and hour mask, keep NaN when there is none or its value is missing, and
otherwise attempt the numeric parse, keeping NaN when `float` raises.
`none` is the missing marker (NaN). -/
def gridCell (rows : List Row) (v : Nat) (d h : Nat) : Option Int :=
  match rows.find? (fun r => r.date == d && r.hour == h) with
  | none => none
  | some r =>
    match r.cells.getD v CellVal.missing with
    | CellVal.num x => some x
    | _ => none

/-- One variable of the dataset after the reshape
`var_matrix.reshape(1, 1, 1, len(dates), len(hours), 1, 1, 1)` laid out over
the eight named axes (XISIC.py lines 487–493). -/
structure VarGrid where
  dims : List String
  shape : List Nat
  data : List (List (Option Int))

/-- The eight axis names (XISIC.py line 491). -/
def axisNames : List String :=
  ["region", "uf", "wmo_code", "date", "hour_utc", "lat", "lon", "alt"]

/-- Build the dense grid of one variable from the surviving rows. -/
def buildVarGrid (rows : List Row) (v : Nat) : VarGrid :=
  { dims := axisNames,
    shape := [1, 1, 1, (datesOf rows).length, (hoursOf rows).length, 1, 1, 1],
    data := (datesOf rows).map fun d => (hoursOf rows).map fun h => gridCell rows v d h }

/-! ## Batch orchestration (`convert_csvs_to_netcdf`, XISIC.py lines 563–798) -/

/-- The three optional filters; `none` models a `None` argument, and a
`some []` models Python's falsy empty list, for which the filter is not
applied. -/
structure Filters where
  region : Option (List String)
  uf : Option (List String)
  wmo : Option (List String)

/-- `if the_filter and value not in the_filter: exclude` — the filter only
applies when it is a non-empty list. -/
def filterPass (flt : Option (List String)) (v : String) : Bool :=
  match flt with
  | none => true
  | some l => l.isEmpty || l.contains v

/-- Per-file filter of the selection loop (XISIC.py lines 653–680): a file
with fewer than five underscore-delimited segments is skipped by `continue`;
otherwise segments 1–3 are matched case-insensitively against the filters. -/
def passesFilters (flt : Filters) (name : String) : Bool :=
  let parts := partsOf name
  decide (5 ≤ parts.length) &&
  filterPass flt.region (parts.getD 1 "").toUpper &&
  filterPass flt.uf (parts.getD 2 "").toUpper &&
  filterPass flt.wmo (parts.getD 3 "").toUpper

/-- File selection (XISIC.py lines 647–684). -/
def selectFiles (allFiles : Bool) (flt : Filters) (files : List String) : List String :=
  if allFiles then files else files.filter (passesFilters flt)

/-- Per-file outcome recorded by the orchestrator. -/
inductive Outcome
  | convertedO
  | skippedO
  | failedO
deriving DecidableEq

/-- Processing of one selected file (XISIC.py lines 713–767) against the set
`ex` of already-existing output names: skip when the output exists and
skip-existing is set; otherwise run the per-file pipeline, whose success on
this file is given by the oracle `oracle f` (a deterministic function of the
file); success writes the output, and a caught failure writes nothing. -/
def stepFile (skipEx : Bool) (oracle : String → Bool) (ex : List String) (f : String) :
    Outcome × List String :=
  if skipEx ∧ outName f ∈ ex then (Outcome.skippedO, ex)
  else if oracle f then
    (Outcome.convertedO, if outName f ∈ ex then ex else ex ++ [outName f])
  else (Outcome.failedO, ex)

/-- The conversion loop over the selected files, returning the per-file
outcomes in order and the final set of existing outputs. -/
def runFiles (skipEx : Bool) (oracle : String → Bool) :
    List String → List String → List (String × Outcome) × List String
  | [], ex => ([], ex)
  | f :: fs, ex =>
    let p := stepFile skipEx oracle ex f
    let q := runFiles skipEx oracle fs p.2
    ((f, p.1) :: q.1, q.2)

/-- `converted_files` count. -/
def convCount (os : List (String × Outcome)) : Nat :=
  (os.filter fun p => decide (p.2 = Outcome.convertedO)).length

/-- `len(skipped_files)` count. -/
def skipCount (os : List (String × Outcome)) : Nat :=
  (os.filter fun p => decide (p.2 = Outcome.skippedO)).length

/-- `failed_files`: the names of the files whose processing failed. -/
def failedFiles (os : List (String × Outcome)) : List String :=
  os.filterMap fun p => if p.2 = Outcome.failedO then some p.1 else none

/-- `saved_paths`: output names appended for each skipped or converted file. -/
def savedPaths (os : List (String × Outcome)) : List String :=
  os.filterMap fun p => if p.2 = Outcome.failedO then none else some (outName p.1)

/-- Aggregate result mirroring `NetCDFConversionResult`. -/
structure BatchRes where
  success : Bool
  converted : Nat
  skipped : Nat
  totalFound : Nat
  saved : List String
  failed : List String
deriving DecidableEq

/-- `convert_csvs_to_netcdf` (XISIC.py lines 563–798) over the candidate
file names `files` and the existing outputs `ex`: early failed results when
no candidate or no selected file exists, otherwise the conversion loop.
Returns the batch result and the resulting set of existing outputs. -/
def convertFs (allFiles : Bool) (flt : Filters) (skipEx : Bool) (oracle : String → Bool)
    (files ex : List String) : BatchRes × List String :=
  if files.isEmpty then (⟨false, 0, 0, 0, [], []⟩, ex)
  else
    let sel := selectFiles allFiles flt files
    if sel.isEmpty then (⟨false, 0, 0, files.length, [], []⟩, ex)
    else
      let r := runFiles skipEx oracle sel ex
      (⟨decide (0 < convCount r.1 + skipCount r.1), convCount r.1, skipCount r.1,
        files.length, savedPaths r.1, failedFiles r.1⟩, r.2)

/-! ## Helper lemmas -/

theorem runFiles_names (skipEx : Bool) (oracle : String → Bool) :
    ∀ (fs ex : List String), ((runFiles skipEx oracle fs ex).1).map Prod.fst = fs := by
  intro fs
  induction fs with
  | nil => intro ex; rfl
  | cons f fs ih => intro ex; simp [runFiles, ih]

theorem runFiles_mem (skipEx : Bool) (oracle : String → Bool) (f : String) :
    ∀ (fs ex : List String), f ∈ fs → ∃ o, (f, o) ∈ (runFiles skipEx oracle fs ex).1 := by
  intro fs
  induction fs with
  | nil => intro ex h; cases h
  | cons g fs ih =>
    intro ex h
    rcases List.mem_cons.mp h with h | h
    · subst h
      exact ⟨(stepFile skipEx oracle ex f).1, by simp [runFiles]⟩
    · obtain ⟨o, ho⟩ := ih (stepFile skipEx oracle ex g).2 h
      exact ⟨o, by simp [runFiles, ho]⟩

theorem runFiles_append (skipEx : Bool) (oracle : String → Bool) (l1 l2 : List String) :
    ∀ ex : List String,
      runFiles skipEx oracle (l1 ++ l2) ex =
        ((runFiles skipEx oracle l1 ex).1 ++
          (runFiles skipEx oracle l2 (runFiles skipEx oracle l1 ex).2).1,
         (runFiles skipEx oracle l2 (runFiles skipEx oracle l1 ex).2).2) := by
  induction l1 with
  | nil => intro ex; simp [runFiles]
  | cons f fs ih => intro ex; simp [runFiles, ih]

/-! ## Claim C1 -/

/-- Claim C1 (code bug): `clean_variable_names` silently merges the two
distinct raw labels `Temp (C)` and `Temp C`: both sanitize to `Temp_C`, the
dict assignment overwrites, and only the second label's data survives — no
disambiguating suffix is applied, contradicting the specified behaviour. -/
theorem C1_bug_eval :
    clean_variable_name "Temp (C)" = "Temp_C" ∧
    clean_variable_name "Temp C" = "Temp_C" ∧
    clean_variable_names [("Temp (C)", (1 : Nat)), ("Temp C", 2)] = [("Temp_C", 2)] :=
  ⟨rfl, rfl, rfl⟩

/-! ## Claim C2 -/

theorem tryEncodings_first (d : String → Bool) :
    ∀ (cands : List String) (e : String), tryEncodings cands d = some e →
      d e = true ∧ ∃ pre post, cands = pre ++ e :: post ∧ ∀ c ∈ pre, d c = false := by
  intro cands
  induction cands with
  | nil =>
    intro e h
    simp [tryEncodings] at h
  | cons a l ih =>
    intro e h
    unfold tryEncodings at h
    by_cases hda : d a = true
    · rw [List.find?_cons_of_pos l hda] at h
      have he := Option.some.inj h
      subst he
      exact ⟨hda, [], l, rfl, fun c hc => absurd hc (List.not_mem_nil c)⟩
    · have hda2 : d a = false := by
        cases hb : d a with
        | true => exact absurd hb hda
        | false => rfl
      rw [List.find?_cons_of_neg l hda] at h
      obtain ⟨hde, pre, post, heq, hpre⟩ := ih e h
      refine ⟨hde, a :: pre, post, by rw [heq]; rfl, ?_⟩
      intro c hc
      rcases List.mem_cons.mp hc with rfl | hc
      · exact hda2
      · exact hpre c hc

theorem tryEncodings_debug_cp (other : String → Bool) :
    tryEncodings debugEncodingList (cpDecodes other) = some "latin1" := rfl

theorem tryEncodings_robust_cp (other : String → Bool) :
    tryEncodings robustEncodingList (cpDecodes other)
      = some (if other "cp1252" = true then "cp1252" else "latin1") := by
  cases h : other "cp1252" with
  | true =>
    unfold tryEncodings robustEncodingList
    rw [List.find?_cons_of_pos _ (show cpDecodes other "cp1252" = true by simp [cpDecodes, h])]
    rfl
  | false =>
    unfold tryEncodings robustEncodingList
    rw [List.find?_cons_of_neg _ (show ¬(cpDecodes other "cp1252" = true) by simp [cpDecodes, h])]
    rfl

theorem extractMetadata_ne_encoding (lines : List String) :
    extractMetadata lines ≠ Except.error PErr.encodingFailure := by
  unfold extractMetadata
  by_cases h : lines.length < 8
  · rw [if_pos h]
    intro hc
    exact absurd (Except.error.inj hc) (by decide)
  · rw [if_neg h]
    intro hc
    cases hc

theorem readStationFile_cp (debugF : Bool) (other : String → Bool) (lines : List String) :
    ∃ enc, readStationFile debugF (cpDecodes other) lines
      = (match extractMetadata lines with
         | Except.error e => Except.error e
         | Except.ok md => Except.ok (enc, md)) := by
  cases debugF with
  | true => exact ⟨"latin1", rfl⟩
  | false =>
    cases h1252 : other "cp1252" with
    | true =>
      have hfind : tryEncodings robustEncodingList (cpDecodes other) = some "cp1252" := by
        rw [tryEncodings_robust_cp other, h1252]
        rfl
      refine ⟨"cp1252", ?_⟩
      unfold readStationFile
      rw [hfind]
      rfl
    | false =>
      have hfind : tryEncodings robustEncodingList (cpDecodes other) = some "latin1" := by
        rw [tryEncodings_robust_cp other, h1252]
        rfl
      refine ⟨"latin1", ?_⟩
      unfold readStationFile
      rw [hfind]
      rfl

theorem readStationFile_cp_ne (debugF : Bool) (other : String → Bool) (lines : List String) :
    readStationFile debugF (cpDecodes other) lines ≠ Except.error PErr.encodingFailure := by
  obtain ⟨enc, he⟩ := readStationFile_cp debugF other lines
  rw [he]
  cases hm : extractMetadata lines with
  | error e =>
    intro hc
    have hc2 : (Except.error e : Except PErr (String × List (String × String)))
        = Except.error PErr.encodingFailure := hc
    apply extractMetadata_ne_encoding lines
    rw [hm, Except.error.inj hc2]
  | ok md =>
    intro hc
    have hc2 : (Except.ok (enc, md) : Except PErr (String × List (String × String)))
        = Except.error PErr.encodingFailure := hc
    cases hc2

/-- Claim C2: each read path tries its fixed ordered candidate list and
accepts the first candidate that decodes: the accepted encoding decodes and
every earlier candidate in the list does not.  With CPython's codecs latin-1
— present in both lists — decodes every byte sequence, so under every
realizable decodability family `cpDecodes other` some candidate is accepted
on every input, the pipeline always proceeds to the metadata phase with a
decoded text, and the error branch guarded by all candidates failing is
never taken: the claim's condition “no candidate decodes the file” holds of
no input, and no input makes either read path report an encoding failure. -/
theorem C2_encoding (other : String → Bool) (lines : List String) :
    (∀ (cands : List String) (d : String → Bool) (e : String),
      tryEncodings cands d = some e →
        d e = true ∧ ∃ pre post, cands = pre ++ e :: post ∧ ∀ c ∈ pre, d c = false) ∧
    tryEncodings debugEncodingList (cpDecodes other) ≠ none ∧
    tryEncodings robustEncodingList (cpDecodes other) ≠ none ∧
    (∀ debugF : Bool, ∃ enc, readStationFile debugF (cpDecodes other) lines
      = (match extractMetadata lines with
         | Except.error e => Except.error e
         | Except.ok md => Except.ok (enc, md))) ∧
    (∀ debugF : Bool,
      readStationFile debugF (cpDecodes other) lines ≠ Except.error PErr.encodingFailure) := by
  refine ⟨fun cands d e h => tryEncodings_first d cands e h, ?_, ?_,
    fun debugF => readStationFile_cp debugF other lines,
    fun debugF => readStationFile_cp_ne debugF other lines⟩
  · rw [tryEncodings_debug_cp]
    intro hc
    cases hc
  · rw [tryEncodings_robust_cp other]
    intro hc
    cases hc

/-- Claim C2 witness: on the silent path's candidate list with cp1252 and
utf-8 failing, the accepted encoding is latin-1, the first candidate that
decodes. -/
theorem C2_witness :
    cpDecodes (fun _ => false) "latin1" = true ∧
    ∃ pre post, robustEncodingList = pre ++ "latin1" :: post ∧
      ∀ c ∈ pre, cpDecodes (fun _ => false) c = false :=
  (C2_encoding (fun _ => false) []).1 robustEncodingList (cpDecodes (fun _ => false))
    "latin1" (by decide)

/-! ## Claim C3 -/

/-- Claim C3 (counterexample): a header in which the date role IS identified
(`Data`) but no hour column exists still raises the missing-columns error,
so the failure is not restricted to the case where neither role is found. -/
theorem C3_counterexample :
    checkEssentialColumns ["Data"] = Except.error PErr.missingColumns ∧
    dateRoleIdentified ["Data"] = true := by
  constructor
  · simp [checkEssentialColumns, renameCol]
    decide
  · decide

/-- Claim C3 (amended): the per-file pipeline passes the essential-columns
check exactly when both the date role and the hour role are present after
renaming; a column is renamed to the date role iff it contains `Data` (or is
already literally `date`), and — when it does not contain `Data` — to the
hour role iff it contains both `Hora` and `UTC` (or is already literally
`hour_utc`). -/
theorem C3_amended (cols : List String) :
    (checkEssentialColumns cols = Except.ok () ↔
      ((∃ c ∈ cols, renameCol c = "date") ∧ (∃ c ∈ cols, renameCol c = "hour_utc"))) ∧
    (∀ c : String, renameCol c = "date" ↔ (containsSub "Data" c = true ∨ c = "date")) ∧
    (∀ c : String, containsSub "Data" c = false →
      (renameCol c = "hour_utc" ↔
        ((containsSub "Hora" c && containsSub "UTC" c) = true ∨ c = "hour_utc"))) := by
  refine ⟨?_, ?_, ?_⟩
  · unfold checkEssentialColumns
    by_cases h : ("date" : String) ∈ cols.map renameCol ∧ ("hour_utc" : String) ∈ cols.map renameCol
    · simp only [if_pos h]
      simp only [List.mem_map] at h
      constructor
      · intro _
        exact ⟨⟨h.1.choose, h.1.choose_spec.1, h.1.choose_spec.2⟩,
               ⟨h.2.choose, h.2.choose_spec.1, h.2.choose_spec.2⟩⟩
      · intro _; trivial
    · simp only [if_neg h]
      constructor
      · intro hc; cases hc
      · intro hc
        exact absurd ⟨List.mem_map.mpr ⟨hc.1.choose, hc.1.choose_spec⟩,
                      List.mem_map.mpr ⟨hc.2.choose, hc.2.choose_spec⟩⟩ h
  · intro c
    unfold renameCol
    cases hD : containsSub "Data" c with
    | true =>
      show ("date" : String) = "date" ↔ (true = true ∨ c = "date")
      exact ⟨fun _ => Or.inl rfl, fun _ => rfl⟩
    | false =>
      cases hH : containsSub "Hora" c && containsSub "UTC" c with
      | true =>
        show ("hour_utc" : String) = "date" ↔ (false = true ∨ c = "date")
        constructor
        · intro h; exact absurd h (by decide)
        · rintro (h | h)
          · exact absurd h (by decide)
          · subst h; exact absurd hH (by decide)
      | false =>
        show c = "date" ↔ (false = true ∨ c = "date")
        constructor
        · intro h; exact Or.inr h
        · rintro (h | h)
          · exact absurd h (by decide)
          · exact h
  · intro c hD
    unfold renameCol
    rw [hD]
    cases hH : containsSub "Hora" c && containsSub "UTC" c with
    | true =>
      show ("hour_utc" : String) = "hour_utc" ↔ (true = true ∨ c = "hour_utc")
      exact ⟨fun _ => Or.inl rfl, fun _ => rfl⟩
    | false =>
      show c = "hour_utc" ↔ (false = true ∨ c = "hour_utc")
      constructor
      · intro h; exact Or.inr h
      · rintro (h | h)
        · exact absurd h (by decide)
        · exact h

/-- Claim C3 witness: a header with a date column and an hour-UTC column
passes the essential-columns check. -/
theorem C3_witness :
    checkEssentialColumns ["Data Medicao", "Hora UTC", "TEMPERATURA"] = Except.ok () :=
  (C3_amended ["Data Medicao", "Hora UTC", "TEMPERATURA"]).1.mpr
    ⟨⟨"Data Medicao", by decide, by decide⟩, ⟨"Hora UTC", by decide, by decide⟩⟩

/-! ## Claim C5 -/

/-- Claim C5 (counterexample): with two surviving rows carrying the same
timestamp, the second row's numeric value does not appear at its grid cell —
the fill keeps the first matching row only — so the claim quantified over
every surviving row fails. -/
theorem C5_counterexample :
    (⟨0, 0, [CellVal.num 2]⟩ : Row) ∈
      [(⟨0, 0, [CellVal.num 1]⟩ : Row), ⟨0, 0, [CellVal.num 2]⟩] ∧
    (⟨0, 0, [CellVal.num 2]⟩ : Row).cells.getD 0 CellVal.missing = CellVal.num 2 ∧
    gridCell [⟨0, 0, [CellVal.num 1]⟩, ⟨0, 0, [CellVal.num 2]⟩] 0 0 0 ≠ some 2 := by
  refine ⟨by decide, rfl, by decide⟩

/-- Claim C5 (amended): for the FIRST surviving row carrying each resolved
timestamp, the grid-fill round-trip holds: a numeric raw value appears as
that number at the row's cell, and a missing or unparsable raw value leaves
the missing marker at that cell (no error is raised). -/
theorem C5_amended (rows : List Row) (v : Nat) (r : Row)
    (hfirst : rows.find? (fun x => x.date == r.date && x.hour == r.hour) = some r) :
    (∀ x : Int, r.cells.getD v CellVal.missing = CellVal.num x →
      gridCell rows v r.date r.hour = some x) ∧
    (r.cells.getD v CellVal.missing = CellVal.missing →
      gridCell rows v r.date r.hour = none) ∧
    (r.cells.getD v CellVal.missing = CellVal.bad →
      gridCell rows v r.date r.hour = none) := by
  have hg : gridCell rows v r.date r.hour =
      (match r.cells.getD v CellVal.missing with
       | CellVal.num x => some x
       | _ => none) := by
    unfold gridCell
    rw [hfirst]
  refine ⟨fun x h => by rw [hg, h], fun h => by rw [hg, h], fun h => by rw [hg, h]⟩

/-- Claim C5 witness: a single-row table round-trips its numeric value. -/
theorem C5_witness :
    gridCell [⟨2, 3, [CellVal.num 7]⟩] 0 2 3 = some 7 :=
  (C5_amended [⟨2, 3, [CellVal.num 7]⟩] 0 ⟨2, 3, [CellVal.num 7]⟩ (by decide)).1 7 rfl

/-! ## Claim C6 -/

/-- Claim C6: every variable grid is laid out over the eight named axes,
with shape 1 on the six non-temporal axes and temporal shape equal to the
number of distinct surviving dates by the number of distinct surviving
hours, and every cell with no backing surviving row holds the missing
marker. -/
theorem C6_shape (rows : List Row) (v : Nat) :
    (buildVarGrid rows v).dims =
      ["region", "uf", "wmo_code", "date", "hour_utc", "lat", "lon", "alt"] ∧
    (buildVarGrid rows v).shape =
      [1, 1, 1, (rows.map Row.date).toFinset.card, (rows.map Row.hour).toFinset.card,
       1, 1, 1] ∧
    (buildVarGrid rows v).data.length = (rows.map Row.date).toFinset.card ∧
    (∀ rowData ∈ (buildVarGrid rows v).data,
      rowData.length = (rows.map Row.hour).toFinset.card) ∧
    (∀ d h : Nat, (∀ r ∈ rows, ¬(r.date = d ∧ r.hour = h)) →
      gridCell rows v d h = none) := by
  have hd : (datesOf rows).length = (rows.map Row.date).toFinset.card := by
    unfold datesOf
    rw [List.length_insertionSort, List.card_toFinset]
  have hh : (hoursOf rows).length = (rows.map Row.hour).toFinset.card := by
    unfold hoursOf
    rw [List.length_insertionSort, List.card_toFinset]
  refine ⟨rfl, ?_, ?_, ?_, ?_⟩
  · simp [buildVarGrid, hd, hh]
  · simp [buildVarGrid, hd]
  · intro rowData hr
    simp only [buildVarGrid, List.mem_map] at hr
    obtain ⟨d, _, hdef⟩ := hr
    rw [← hdef]
    simp [hh]
  · intro d h hnone
    unfold gridCell
    have : rows.find? (fun r => r.date == d && r.hour == h) = none := by
      rw [List.find?_eq_none]
      intro r hr
      have := hnone r hr
      simp only [Bool.and_eq_true, beq_iff_eq]
      intro hcontra
      exact this ⟨hcontra.1, hcontra.2⟩
    rw [this]

/-- Claim C6 witness: a one-row table yields a grid of temporal shape (1,1)
over the eight axes, and a cell with no backing row is missing. -/
theorem C6_witness :
    gridCell [⟨0, 1, [CellVal.num 5]⟩] 0 2 2 = none :=
  (C6_shape [⟨0, 1, [CellVal.num 5]⟩] 0).2.2.2.2 2 2 (by decide)

/-! ## Claim C9 -/

/-- Claim C9: latitude, longitude and altitude are always read from the
metadata preamble regardless of the filename segments: identity extraction
fails exactly when one of the three preamble keys is absent or unparsable as
a decimal-comma number, the extracted coordinates do not depend on the
filename segments, and on success they equal the parsed preamble values. -/
theorem C9_coords (parts parts2 : List String) (md : List (String × String)) :
    ((extractIdentity parts md = none) ↔
      ((lookupMeta md "LATITUDE").bind parseCoord = none ∨
       (lookupMeta md "LONGITUDE").bind parseCoord = none ∨
       (lookupMeta md "ALTITUDE").bind parseCoord = none)) ∧
    ((extractIdentity parts md).map (fun i => (i.lat, i.lon, i.alt)) =
      (extractIdentity parts2 md).map (fun i => (i.lat, i.lon, i.alt))) ∧
    (∀ i, extractIdentity parts md = some i →
      some i.lat = (lookupMeta md "LATITUDE").bind parseCoord ∧
      some i.lon = (lookupMeta md "LONGITUDE").bind parseCoord ∧
      some i.alt = (lookupMeta md "ALTITUDE").bind parseCoord) := by
  rcases hLA : (lookupMeta md "LATITUDE").bind parseCoord with _ | la <;>
  rcases hLO : (lookupMeta md "LONGITUDE").bind parseCoord with _ | lo <;>
  rcases hAL : (lookupMeta md "ALTITUDE").bind parseCoord with _ | al <;>
  simp [extractIdentity, hLA, hLO, hAL]

/-- Claim C9 witness: with a filename of fewer than five segments, the
coordinates of a successfully extracted identity are the parsed decimal-
comma preamble values. -/
theorem C9_witness :
    some ((-1 : Rat)) =
      (lookupMeta [("LATITUDE", "-1"), ("LONGITUDE", "-48"), ("ALTITUDE", "10")]
        "LATITUDE").bind parseCoord :=
  ((C9_coords [] [] [("LATITUDE", "-1"), ("LONGITUDE", "-48"), ("ALTITUDE", "10")]).2.2
    ⟨"Unknown", "Unknown", "Unknown", "Unknown", (-1 : Rat), (-48 : Rat), 10⟩
    (by decide)).1

/-! ## Claim C4: sanitizer helper lemmas -/

theorem cleanChar_not_replaced {c : Char} (h : c ∉ replacedChars) : cleanChar c = [c] := by
  have h1 : ¬(c = '/') := fun e => h (by subst e; decide)
  have h2 : ¬(c = '(') := fun e => h (by subst e; decide)
  have h3 : ¬(c = ')') := fun e => h (by subst e; decide)
  have h4 : ¬(c = '°') := fun e => h (by subst e; decide)
  have h5 : ¬(c = ' ') := fun e => h (by subst e; decide)
  have h6 : ¬(c = ',') := fun e => h (by subst e; decide)
  have h7 : ¬(c = '-') := fun e => h (by subst e; decide)
  have h8 : ¬(c = '.') := fun e => h (by subst e; decide)
  have h9 : ¬(c = '²') := fun e => h (by subst e; decide)
  have h10 : ¬(c = '³') := fun e => h (by subst e; decide)
  unfold cleanChar
  rw [if_neg h1, if_neg h2, if_neg h3, if_neg h4, if_neg h5, if_neg h6, if_neg h7,
      if_neg h8, if_neg h9, if_neg h10]

theorem cleanChar_self {c d : Char} (h : d ∈ cleanChar c) : cleanChar d = [d] := by
  by_cases hrep : c ∈ replacedChars
  · have key : ∀ x ∈ replacedChars, ∀ y ∈ cleanChar x, cleanChar y = [y] := by decide
    exact key c hrep d h
  · rw [cleanChar_not_replaced hrep, List.mem_singleton] at h
    subst h
    exact cleanChar_not_replaced hrep

theorem cleanChar_ident {c d : Char} (hc : handledChar c = true) (hd : d ∈ cleanChar c) :
    isIdentChar d = true := by
  by_cases hrep : c ∈ replacedChars
  · have key : ∀ x ∈ replacedChars, ∀ y ∈ cleanChar x, isIdentChar y = true := by decide
    exact key c hrep d hd
  · rw [cleanChar_not_replaced hrep, List.mem_singleton] at hd
    subst hd
    unfold handledChar at hc
    by_cases ha : d.isAlpha = true
    · simp [isIdentChar, ha]
    by_cases hdg : d.isDigit = true
    · simp [isIdentChar, hdg]
    by_cases hu : d = '_'
    · simp [isIdentChar, hu]
    exfalso
    simp only [Bool.or_eq_true, decide_eq_true_eq] at hc
    tauto

theorem mapChars_fixed : ∀ (l : List Char), (∀ d ∈ l, cleanChar d = [d]) → mapChars l = l := by
  intro l
  induction l with
  | nil => intro _; rfl
  | cons c cs ih =>
    intro h
    have hc := h c (List.mem_cons_self c cs)
    have ht := ih (fun d hd => h d (List.mem_cons_of_mem c hd))
    unfold mapChars at ht ⊢
    rw [List.map_cons, List.flatten_cons, hc, ht]
    rfl

theorem mem_mapChars {l : List Char} {d : Char} (h : d ∈ mapChars l) :
    ∃ c ∈ l, d ∈ cleanChar c := by
  unfold mapChars at h
  rw [List.mem_flatten] at h
  obtain ⟨L, hL, hdL⟩ := h
  rw [List.mem_map] at hL
  obtain ⟨c, hc, rfl⟩ := hL
  exact ⟨c, hc, hdL⟩

theorem noDD_tail {c : Char} {l : List Char} (h : noDD (c :: l) = true) : noDD l = true := by
  cases l with
  | nil => rfl
  | cons b bs =>
    rw [show noDD (c :: b :: bs) = (!(c = '_' && b = '_') && noDD (b :: bs)) from rfl,
        Bool.and_eq_true] at h
    exact h.2

theorem noDD_collapseU : ∀ l : List Char, noDD (collapseU l) = true := by
  intro l
  induction l with
  | nil => rfl
  | cons c cs ih =>
    unfold collapseU
    cases hr : collapseU cs with
    | nil => rfl
    | cons d ds =>
      rw [hr] at ih
      show noDD (if c = '_' && d = '_' then d :: ds else c :: d :: ds) = true
      cases hcd : (c = '_' && d = '_') with
      | true => exact ih
      | false =>
        show noDD (c :: d :: ds) = true
        rw [show noDD (c :: d :: ds) = (!(c = '_' && d = '_') && noDD (d :: ds)) from rfl]
        rw [hcd]
        rw [Bool.and_eq_true]
        exact ⟨rfl, ih⟩

theorem collapseU_of_noDD : ∀ l : List Char, noDD l = true → collapseU l = l := by
  intro l
  induction l with
  | nil => intro _; rfl
  | cons c cs ih =>
    intro h
    have ht := ih (noDD_tail h)
    unfold collapseU
    rw [ht]
    cases cs with
    | nil => rfl
    | cons d ds =>
      rw [show noDD (c :: d :: ds) = (!(c = '_' && d = '_') && noDD (d :: ds)) from rfl,
          Bool.and_eq_true] at h
      have hcd : (c = '_' && d = '_') = false := by
        cases hb : (c = '_' && d = '_') with
        | false => rfl
        | true => rw [hb] at h; rcases h with ⟨h1, _⟩; cases h1
      show (if c = '_' && d = '_' then d :: ds else c :: d :: ds) = c :: d :: ds
      rw [hcd]
      rfl

theorem mem_collapseU : ∀ {l : List Char} {x : Char}, x ∈ collapseU l → x ∈ l := by
  intro l
  induction l with
  | nil => intro x h; cases h
  | cons c cs ih =>
    intro x h
    unfold collapseU at h
    cases hr : collapseU cs with
    | nil =>
      rw [hr] at h
      have h2 : x ∈ [c] := h
      rw [List.mem_singleton] at h2
      subst h2
      exact List.mem_cons_self x cs
    | cons d ds =>
      rw [hr] at h
      have h2 : x ∈ (if (c = '_' && d = '_') = true then d :: ds else c :: d :: ds) := h
      by_cases hcd : (c = '_' && d = '_') = true
      · rw [if_pos hcd] at h2
        have : x ∈ collapseU cs := by rw [hr]; exact h2
        exact List.mem_cons_of_mem c (ih this)
      · rw [if_neg hcd] at h2
        rcases List.mem_cons.mp h2 with h3 | h3
        · subst h3; exact List.mem_cons_self x cs
        · have : x ∈ collapseU cs := by rw [hr]; exact h3
          exact List.mem_cons_of_mem c (ih this)

theorem dropLead_head : ∀ (l : List Char) {c : Char},
    (l.dropWhile (fun x => x = '_')).head? = some c → ¬(c = '_') := by
  intro l
  induction l with
  | nil => intro c h; cases h
  | cons a as ih =>
    intro c h
    by_cases ha : (a = '_')
    · rw [List.dropWhile_cons_of_pos (by simpa using ha)] at h
      exact ih h
    · rw [List.dropWhile_cons_of_neg (by simpa using ha)] at h
      rw [List.head?_cons] at h
      have := Option.some.inj h
      subst this
      exact ha

theorem noDD_dropLead {l : List Char} (h : noDD l = true) :
    noDD (l.dropWhile (fun x => x = '_')) = true := by
  induction l with
  | nil => rfl
  | cons a as ih =>
    by_cases ha : (a = '_')
    · rw [List.dropWhile_cons_of_pos (by simpa using ha)]
      exact ih (noDD_tail h)
    · rw [List.dropWhile_cons_of_neg (by simpa using ha)]
      exact h

theorem mem_dropTrailU : ∀ {l : List Char} {x : Char}, x ∈ dropTrailU l → x ∈ l := by
  intro l
  induction l with
  | nil => intro x h; cases h
  | cons c cs ih =>
    intro x h
    unfold dropTrailU at h
    cases hr : dropTrailU cs with
    | nil =>
      rw [hr] at h
      by_cases hc : (c = '_')
      · have h2 : x ∈ ([] : List Char) := by
          rw [if_pos hc] at h
          exact h
        cases h2
      · have h2 : x ∈ [c] := by
          rw [if_neg hc] at h
          exact h
        rw [List.mem_singleton] at h2
        subst h2
        exact List.mem_cons_self x cs
    | cons d ds =>
      rw [hr] at h
      have h2 : x ∈ c :: d :: ds := h
      rcases List.mem_cons.mp h2 with h3 | h3
      · subst h3; exact List.mem_cons_self x cs
      · have : x ∈ dropTrailU cs := by rw [hr]; exact h3
        exact List.mem_cons_of_mem c (ih this)

theorem dropTrailU_head : ∀ l : List Char,
    dropTrailU l = [] ∨ (dropTrailU l).head? = l.head? := by
  intro l
  cases l with
  | nil => exact Or.inl rfl
  | cons c cs =>
    unfold dropTrailU
    cases hr : dropTrailU cs with
    | nil =>
      by_cases hc : (c = '_')
      · rw [if_pos hc]; exact Or.inl rfl
      · rw [if_neg hc]; exact Or.inr rfl
    | cons d ds => exact Or.inr rfl

theorem noDD_dropTrailU : ∀ {l : List Char}, noDD l = true → noDD (dropTrailU l) = true := by
  intro l
  induction l with
  | nil => intro _; rfl
  | cons c cs ih =>
    intro h
    have ht := ih (noDD_tail h)
    unfold dropTrailU
    cases hr : dropTrailU cs with
    | nil =>
      by_cases hc : (c = '_')
      · rw [if_pos hc]; rfl
      · rw [if_neg hc]; rfl
    | cons d ds =>
      rw [hr] at ht
      rw [show noDD (c :: d :: ds) = (!(c = '_' && d = '_') && noDD (d :: ds)) from rfl,
          Bool.and_eq_true]
      refine ⟨?_, ht⟩
      rcases dropTrailU_head cs with he | he
      · rw [hr] at he; cases he
      · rw [hr] at he
        cases cs with
        | nil => cases he
        | cons b bs =>
          rw [List.head?_cons, List.head?_cons] at he
          have hdb := Option.some.inj he
          subst hdb
          rw [show noDD (c :: d :: bs) = (!(c = '_' && d = '_') && noDD (d :: bs)) from rfl,
              Bool.and_eq_true] at h
          exact h.1

theorem dropTrailU_last : ∀ (l : List Char) {c : Char},
    (dropTrailU l).getLast? = some c → ¬(c = '_') := by
  intro l
  induction l with
  | nil => intro c h; cases h
  | cons a as ih =>
    intro c h
    unfold dropTrailU at h
    cases hr : dropTrailU as with
    | nil =>
      rw [hr] at h
      by_cases ha : (a = '_')
      · rw [if_pos ha] at h; cases h
      · rw [if_neg ha] at h
        have h2 : some a = some c := h
        have := Option.some.inj h2
        subst this
        exact ha
    | cons d ds =>
      rw [hr] at h
      have h2 : (a :: d :: ds).getLast? = some c := h
      rw [List.getLast?_cons_cons] at h2
      apply ih
      rw [hr]
      exact h2

theorem dropTrailU_of_last : ∀ l : List Char,
    (∀ c, l.getLast? = some c → ¬(c = '_')) → dropTrailU l = l := by
  intro l
  induction l with
  | nil => intro _; rfl
  | cons a as ih =>
    intro h
    unfold dropTrailU
    cases as with
    | nil =>
      have ha := h a rfl
      rw [show dropTrailU ([] : List Char) = [] from rfl]
      rw [if_neg ha]
    | cons b bs =>
      have ht : dropTrailU (b :: bs) = b :: bs := by
        apply ih
        intro c hc
        apply h
        rw [List.getLast?_cons_cons]
        exact hc
      rw [ht]

theorem mem_stripU {l : List Char} {x : Char} (h : x ∈ stripU l) : x ∈ l := by
  unfold stripU at h
  exact (List.dropWhile_sublist _).subset (mem_dropTrailU h)

theorem noDD_stripU {l : List Char} (h : noDD l = true) : noDD (stripU l) = true :=
  noDD_dropTrailU (noDD_dropLead h)

theorem stripU_head {l : List Char} {c : Char} (h : (stripU l).head? = some c) : ¬(c = '_') := by
  unfold stripU at h
  rcases dropTrailU_head (l.dropWhile (fun x => x = '_')) with he | he
  · rw [he] at h; cases h
  · rw [he] at h
    exact dropLead_head l h

theorem stripU_last {l : List Char} {c : Char} (h : (stripU l).getLast? = some c) : ¬(c = '_') :=
  dropTrailU_last _ h

theorem dropWhile_eq_self {l : List Char} (h : ∀ c, l.head? = some c → ¬(c = '_')) :
    l.dropWhile (fun x => x = '_') = l := by
  cases l with
  | nil => rfl
  | cons a as =>
    have ha := h a rfl
    rw [List.dropWhile_cons_of_neg (by simpa using ha)]

theorem stripU_of {l : List Char} (hhead : ∀ c, l.head? = some c → ¬(c = '_'))
    (hlast : ∀ c, l.getLast? = some c → ¬(c = '_')) : stripU l = l := by
  unfold stripU
  rw [dropWhile_eq_self hhead]
  exact dropTrailU_of_last l hlast

theorem sanitizeCore_chars {l : List Char} {x : Char} (h : x ∈ sanitizeCore l) :
    cleanChar x = [x] := by
  unfold sanitizeCore at h
  rcases mem_mapChars (mem_collapseU (mem_stripU h)) with ⟨c, _, hcx⟩
  exact cleanChar_self hcx

theorem sanitizeCore_noDD (l : List Char) : noDD (sanitizeCore l) = true :=
  noDD_stripU (noDD_collapseU (mapChars l))

theorem sanitizeCore_head {l : List Char} {c : Char} (h : (sanitizeCore l).head? = some c) :
    ¬(c = '_') := stripU_head h

theorem sanitizeCore_last {l : List Char} {c : Char} (h : (sanitizeCore l).getLast? = some c) :
    ¬(c = '_') := stripU_last h

theorem sanitizeCore_of (r : List Char) (hchars : ∀ x ∈ r, cleanChar x = [x])
    (hdd : noDD r = true) (hhead : ∀ c, r.head? = some c → ¬(c = '_'))
    (hlast : ∀ c, r.getLast? = some c → ¬(c = '_')) : sanitizeCore r = r := by
  unfold sanitizeCore
  rw [mapChars_fixed r hchars, collapseU_of_noDD r hdd]
  exact stripU_of hhead hlast

theorem finalizeName_cons_digit {c : Char} {cs : List Char} (h : c.isDigit = true) :
    finalizeName (c :: cs) = 'v' :: 'a' :: 'r' :: '_' :: c :: cs := by
  simp [finalizeName, h]

theorem finalizeName_cons_nondigit {c : Char} {cs : List Char} (h : c.isDigit = false) :
    finalizeName (c :: cs) = c :: cs := by
  simp [finalizeName, h]

theorem noDD_var {c : Char} {cs : List Char} (hc : ¬(c = '_')) (h : noDD (c :: cs) = true) :
    noDD ('v' :: 'a' :: 'r' :: '_' :: c :: cs) = true := by
  rw [show noDD ('v' :: 'a' :: 'r' :: '_' :: c :: cs)
      = (!('v' = '_' && 'a' = '_') &&
         (!('a' = '_' && 'r' = '_') &&
          (!('r' = '_' && '_' = '_') &&
           (!('_' = '_' && c = '_') && noDD (c :: cs))))) from rfl]
  have hcf : decide (c = '_') = false := decide_eq_false hc
  simp [h, hcf]

theorem getLast?_var {c : Char} {cs : List Char} :
    ('v' :: 'a' :: 'r' :: '_' :: c :: cs).getLast? = (c :: cs).getLast? := by
  rw [List.getLast?_cons_cons, List.getLast?_cons_cons, List.getLast?_cons_cons,
      List.getLast?_cons_cons]

theorem sanitizeCore_var (c : Char) (cs : List Char) (hcd : c.isDigit = true)
    (hchars : ∀ x ∈ c :: cs, cleanChar x = [x]) (hdd : noDD (c :: cs) = true)
    (hlast : ∀ x, (c :: cs).getLast? = some x → ¬(x = '_')) :
    sanitizeCore ('v' :: 'a' :: 'r' :: '_' :: c :: cs) = 'v' :: 'a' :: 'r' :: '_' :: c :: cs := by
  apply sanitizeCore_of
  · intro x hx
    rcases List.mem_cons.mp hx with rfl | hx
    · decide
    rcases List.mem_cons.mp hx with rfl | hx
    · decide
    rcases List.mem_cons.mp hx with rfl | hx
    · decide
    rcases List.mem_cons.mp hx with rfl | hx
    · decide
    exact hchars x hx
  · apply noDD_var ?_ hdd
    intro he
    subst he
    simp [Char.isDigit] at hcd
  · intro x hx
    rw [List.head?_cons] at hx
    have := Option.some.inj hx
    subst this
    decide
  · intro x hx
    rw [getLast?_var] at hx
    exact hlast x hx

theorem clean_idem (s : String) :
    clean_variable_name (clean_variable_name s) = clean_variable_name s := by
  have hchars : ∀ x ∈ sanitizeCore s.data, cleanChar x = [x] := fun x hx => sanitizeCore_chars hx
  have hdd := sanitizeCore_noDD s.data
  have hhead : ∀ c, (sanitizeCore s.data).head? = some c → ¬(c = '_') :=
    fun c h => sanitizeCore_head h
  have hlast : ∀ c, (sanitizeCore s.data).getLast? = some c → ¬(c = '_') :=
    fun c h => sanitizeCore_last h
  show (⟨finalizeName (sanitizeCore (finalizeName (sanitizeCore s.data)))⟩ : String)
      = ⟨finalizeName (sanitizeCore s.data)⟩
  cases hr : sanitizeCore s.data with
  | nil => decide
  | cons c cs =>
    rw [hr] at hchars hdd hhead hlast
    cases hcd : c.isDigit with
    | true =>
      rw [finalizeName_cons_digit hcd]
      rw [sanitizeCore_var c cs hcd hchars hdd (fun x hx => hlast x hx)]
      rw [finalizeName_cons_nondigit (by decide)]
    | false =>
      rw [finalizeName_cons_nondigit hcd]
      rw [sanitizeCore_of (c :: cs) hchars hdd hhead hlast]
      rw [finalizeName_cons_nondigit hcd]

theorem ident_of_sanitize {l : List Char} (hl : ∀ x ∈ l, handledChar x = true) :
    ∀ x ∈ sanitizeCore l, isIdentChar x = true := by
  intro x hx
  unfold sanitizeCore at hx
  rcases mem_mapChars (mem_collapseU (mem_stripU hx)) with ⟨c, hc, hcx⟩
  exact cleanChar_ident (hl c hc) hcx

theorem clean_matches (s : String) (h : ∀ c ∈ s.data, handledChar c = true) :
    matchesIdent (clean_variable_name s) = true := by
  have hid := ident_of_sanitize (l := s.data) h
  show matchesIdent ⟨finalizeName (sanitizeCore s.data)⟩ = true
  cases hr : sanitizeCore s.data with
  | nil => decide
  | cons c cs =>
    rw [hr] at hid
    have hcid : isIdentChar c = true := hid c (List.mem_cons_self c cs)
    have hcs : cs.all isIdentChar = true :=
      List.all_eq_true.mpr (fun x hx => hid x (List.mem_cons_of_mem c hx))
    cases hcd : c.isDigit with
    | true =>
      rw [finalizeName_cons_digit hcd]
      show (('v'.isAlpha || 'v' = '_') &&
        ('a' :: 'r' :: '_' :: c :: cs).all isIdentChar) = true
      rw [Bool.and_eq_true]
      refine ⟨by decide, ?_⟩
      rw [List.all_cons, List.all_cons, List.all_cons, List.all_cons]
      simp only [Bool.and_eq_true]
      exact ⟨by decide, by decide, by decide, hcid, hcs⟩
    | false =>
      rw [finalizeName_cons_nondigit hcd]
      show ((c.isAlpha || c = '_') && cs.all isIdentChar) = true
      rw [Bool.and_eq_true]
      refine ⟨?_, hcs⟩
      by_cases ha : c.isAlpha = true
      · simp [ha]
      by_cases hu : c = '_'
      · simp [hu]
      exfalso
      unfold isIdentChar at hcid
      rw [hcd] at hcid
      simp only [Bool.or_eq_true, decide_eq_true_eq, Bool.false_eq_true] at hcid
      tauto

/-! ## Claim C4: theorems -/

/-- Claim C4 (counterexample): the raw label `%` is returned unchanged by
the sanitizer, and `%` does not match the identifier pattern, so the claim
that every sanitized name matches the pattern fails. -/
theorem C4_counterexample :
    clean_variable_name "%" = "%" ∧ matchesIdent (clean_variable_name "%") = false :=
  ⟨rfl, rfl⟩

/-- Claim C4 (amended): the sanitizer is idempotent on every input, and for
labels made only of handled characters (ASCII alphanumerics, underscore and
the ten explicitly replaced characters) the sanitized name matches the
identifier pattern; characters outside that set pass through unchanged and
can violate the pattern. -/
theorem C4_amended :
    (∀ s : String, clean_variable_name (clean_variable_name s) = clean_variable_name s) ∧
    (∀ s : String, (∀ c ∈ s.data, handledChar c = true) →
      matchesIdent (clean_variable_name s) = true) :=
  ⟨clean_idem, clean_matches⟩

/-- Claim C4 witness: the INMET-style label `Temp (C)` consists of handled
characters and its sanitized form matches the identifier pattern. -/
theorem C4_witness : matchesIdent (clean_variable_name "Temp (C)") = true :=
  C4_amended.2 "Temp (C)" (by decide)

/-! ## Batch helper lemmas -/

theorem runFiles_cons (skipEx : Bool) (oracle : String → Bool) (g : String)
    (fs ex : List String) :
    runFiles skipEx oracle (g :: fs) ex
      = ((g, (stepFile skipEx oracle ex g).1)
          :: (runFiles skipEx oracle fs (stepFile skipEx oracle ex g).2).1,
         (runFiles skipEx oracle fs (stepFile skipEx oracle ex g).2).2) := rfl

theorem stepFile_true_mem {oracle : String → Bool} {ex : List String} {g : String}
    (hm : outName g ∈ ex) : stepFile true oracle ex g = (Outcome.skippedO, ex) := by
  unfold stepFile
  rw [if_pos ⟨rfl, hm⟩]

theorem stepFile_true_conv {oracle : String → Bool} {ex : List String} {g : String}
    (hm : outName g ∉ ex) (ho : oracle g = true) :
    stepFile true oracle ex g = (Outcome.convertedO, ex ++ [outName g]) := by
  unfold stepFile
  rw [if_neg (fun h => hm h.2), if_pos ho, if_neg hm]

theorem stepFile_true_fail {oracle : String → Bool} {ex : List String} {g : String}
    (hm : outName g ∉ ex) (ho : oracle g = false) :
    stepFile true oracle ex g = (Outcome.failedO, ex) := by
  unfold stepFile
  rw [if_neg (fun h => hm h.2), if_neg (by rw [ho]; exact Bool.false_ne_true)]

theorem runFiles_mono (oracle : String → Bool) :
    ∀ (fs ex : List String) (x : String), x ∈ ex → x ∈ (runFiles true oracle fs ex).2 := by
  intro fs
  induction fs with
  | nil => intro ex x hx; exact hx
  | cons g fs ih =>
    intro ex x hx
    rw [runFiles_cons]
    apply ih
    by_cases hm : outName g ∈ ex
    · rw [stepFile_true_mem hm]; exact hx
    · cases ho : oracle g with
      | true =>
        rw [stepFile_true_conv hm ho]
        exact List.mem_append_left _ hx
      | false => rw [stepFile_true_fail hm ho]; exact hx

theorem runFiles_sub (oracle : String → Bool) :
    ∀ (fs ex : List String) (x : String), x ∈ (runFiles true oracle fs ex).2 →
      x ∈ ex ∨ x ∈ fs.map outName := by
  intro fs
  induction fs with
  | nil => intro ex x hx; exact Or.inl hx
  | cons g fs ih =>
    intro ex x hx
    rw [runFiles_cons] at hx
    have hx2 : x ∈ (runFiles true oracle fs (stepFile true oracle ex g).2).2 := hx
    rcases ih _ x hx2 with h | h
    · by_cases hm : outName g ∈ ex
      · rw [stepFile_true_mem hm] at h
        exact Or.inl h
      · cases ho : oracle g with
        | true =>
          rw [stepFile_true_conv hm ho] at h
          have h3 : x ∈ ex ++ [outName g] := h
          rcases List.mem_append.mp h3 with h2 | h2
          · exact Or.inl h2
          · rw [List.mem_singleton] at h2
            subst h2
            exact Or.inr (by rw [List.map_cons]; exact List.mem_cons_self _ _)
        | false =>
          rw [stepFile_true_fail hm ho] at h
          exact Or.inl h
    · rw [List.map_cons]
      exact Or.inr (List.mem_cons_of_mem _ h)

theorem runFiles_spec (oracle : String → Bool) :
    ∀ (fs ex : List String), (fs.map outName).Nodup →
      ∀ (f : String) (o : Outcome), (f, o) ∈ (runFiles true oracle fs ex).1 →
        (o = Outcome.failedO →
          oracle f = false ∧ outName f ∉ (runFiles true oracle fs ex).2) ∧
        (o ≠ Outcome.failedO → outName f ∈ (runFiles true oracle fs ex).2) := by
  intro fs
  induction fs with
  | nil => intro ex _ f o h; cases h
  | cons g fs ih =>
    intro ex hnd f o h
    have hnd2 : (fs.map outName).Nodup := by
      rw [List.map_cons] at hnd
      exact hnd.of_cons
    rw [runFiles_cons] at h
    have h2 : (f, o) ∈ (g, (stepFile true oracle ex g).1)
        :: (runFiles true oracle fs (stepFile true oracle ex g).2).1 := h
    rw [runFiles_cons]
    rcases List.mem_cons.mp h2 with hfo | hfo
    · have hf : f = g := congrArg Prod.fst hfo
      have ho : o = (stepFile true oracle ex g).1 := congrArg Prod.snd hfo
      subst hf
      by_cases hm : outName f ∈ ex
      · rw [stepFile_true_mem hm] at ho
        subst ho
        refine ⟨fun hcon => (nomatch hcon), fun _ => ?_⟩
        apply runFiles_mono
        rw [stepFile_true_mem hm]
        exact hm
      · cases hoc : oracle f with
        | true =>
          rw [stepFile_true_conv hm hoc] at ho
          subst ho
          refine ⟨fun hcon => (nomatch hcon), fun _ => ?_⟩
          apply runFiles_mono
          rw [stepFile_true_conv hm hoc]
          exact List.mem_append_right _ (List.mem_singleton.mpr rfl)
        | false =>
          rw [stepFile_true_fail hm hoc] at ho
          subst ho
          refine ⟨fun _ => ⟨rfl, ?_⟩, fun hcon => absurd rfl hcon⟩
          intro hmem
          have hmem2 : outName f ∈ (runFiles true oracle fs (stepFile true oracle ex f).2).2 :=
            hmem
          rw [stepFile_true_fail hm hoc] at hmem2
          rcases runFiles_sub oracle fs ex _ hmem2 with hc | hc
          · exact hm hc
          · rw [List.map_cons] at hnd
            exact (List.nodup_cons.mp hnd).1 hc
    · exact ih (stepFile true oracle ex g).2 hnd2 f o hfo

theorem runFiles_stable (oracle : String → Bool) :
    ∀ (fs E : List String), (∀ f ∈ fs, outName f ∉ E → oracle f = false) →
      runFiles true oracle fs E =
        (fs.map (fun f =>
          (f, if outName f ∈ E then Outcome.skippedO else Outcome.failedO)), E) := by
  intro fs
  induction fs with
  | nil => intro E _; rfl
  | cons g fs ih =>
    intro E hyp
    rw [runFiles_cons]
    by_cases hm : outName g ∈ E
    · simp only [stepFile_true_mem hm]
      rw [ih E (fun f hf => hyp f (List.mem_cons_of_mem g hf))]
      rw [List.map_cons, if_pos hm]
    · have hg : oracle g = false := hyp g (List.mem_cons_self g fs) hm
      simp only [stepFile_true_fail hm hg]
      rw [ih E (fun f hf => hyp f (List.mem_cons_of_mem g hf))]
      rw [List.map_cons, if_neg hm]

theorem counts_nonfailed : ∀ os : List (String × Outcome),
    convCount os + skipCount os
      = (os.filter (fun p => decide (p.2 ≠ Outcome.failedO))).length := by
  intro os
  induction os with
  | nil => rfl
  | cons p os ih =>
    obtain ⟨f, o⟩ := p
    unfold convCount skipCount at ih ⊢
    rw [List.filter_cons, List.filter_cons, List.filter_cons]
    cases o with
    | convertedO =>
      rw [if_pos (by simp), if_neg (by simp), if_pos (by simp)]
      simp only [List.length_cons]
      omega
    | skippedO =>
      rw [if_neg (by simp), if_pos (by simp), if_pos (by simp)]
      simp only [List.length_cons]
      omega
    | failedO =>
      rw [if_neg (by simp), if_neg (by simp), if_neg (by simp)]
      omega

theorem filter_length_congr {α β : Type} :
    ∀ (os : List (α × β)) (p : α × β → Bool) (q : α → Bool),
      (∀ x ∈ os, p x = q x.1) →
      (os.filter p).length = ((os.map Prod.fst).filter q).length := by
  intro os p q
  induction os with
  | nil => intro _; rfl
  | cons x os ih =>
    intro h
    have hx := h x (List.mem_cons_self x os)
    have ht := ih (fun y hy => h y (List.mem_cons_of_mem x hy))
    rw [List.map_cons, List.filter_cons, List.filter_cons, hx]
    cases hq : q x.1 with
    | true => simp [ht]
    | false => simpa using ht

theorem savedPaths_mem {os : List (String × Outcome)} {f : String}
    (h : (f, Outcome.skippedO) ∈ os) : outName f ∈ savedPaths os := by
  unfold savedPaths
  apply List.mem_filterMap.mpr
  exact ⟨(f, Outcome.skippedO), h, by simp⟩

theorem convCount_stable (E1 : List String) : ∀ sel : List String,
    convCount (sel.map (fun f =>
      (f, if outName f ∈ E1 then Outcome.skippedO else Outcome.failedO))) = 0 := by
  intro sel
  induction sel with
  | nil => rfl
  | cons a l ih =>
    rw [List.map_cons]
    unfold convCount at ih ⊢
    rw [List.filter_cons]
    by_cases hm : outName a ∈ E1
    · rw [if_pos hm]
      simpa using ih
    · rw [if_neg hm]
      simpa using ih

theorem skipCount_stable (E1 : List String) : ∀ sel : List String,
    skipCount (sel.map (fun f =>
      (f, if outName f ∈ E1 then Outcome.skippedO else Outcome.failedO)))
      = (sel.filter (fun f => decide (outName f ∈ E1))).length := by
  intro sel
  induction sel with
  | nil => rfl
  | cons a l ih =>
    rw [List.map_cons]
    unfold skipCount at ih ⊢
    rw [List.filter_cons, List.filter_cons]
    by_cases hm : outName a ∈ E1
    · rw [if_pos hm]
      simp only [decide_eq_true hm, if_pos rfl]
      simpa using ih
    · rw [if_neg hm]
      simp only [decide_eq_false hm]
      simpa using ih

/-! ## Claim C7 -/

/-- Claim C7 (counterexample): two distinct input names can collide on the
same output name after the `.CSV` to `.nc` replacement.  With the first file
failing deterministically and the second converting, the second run skips
both files (the shared output now exists), so the second run's skipped count
(2) differs from the first run's converted plus skipped (1), although the
second run's converted count is 0. -/
theorem C7_counterexample :
    (convertFs true ⟨none, none, none⟩ true (fun f => decide (f = "INMET_A.CSV.CSV"))
        ["INMET_A.nc.CSV", "INMET_A.CSV.CSV"]
        (convertFs true ⟨none, none, none⟩ true (fun f => decide (f = "INMET_A.CSV.CSV"))
          ["INMET_A.nc.CSV", "INMET_A.CSV.CSV"] []).2).1.converted = 0 ∧
    (convertFs true ⟨none, none, none⟩ true (fun f => decide (f = "INMET_A.CSV.CSV"))
        ["INMET_A.nc.CSV", "INMET_A.CSV.CSV"]
        (convertFs true ⟨none, none, none⟩ true (fun f => decide (f = "INMET_A.CSV.CSV"))
          ["INMET_A.nc.CSV", "INMET_A.CSV.CSV"] []).2).1.skipped ≠
      (convertFs true ⟨none, none, none⟩ true (fun f => decide (f = "INMET_A.CSV.CSV"))
          ["INMET_A.nc.CSV", "INMET_A.CSV.CSV"] []).1.converted +
        (convertFs true ⟨none, none, none⟩ true (fun f => decide (f = "INMET_A.CSV.CSV"))
          ["INMET_A.nc.CSV", "INMET_A.CSV.CSV"] []).1.skipped := by
  refine ⟨rfl, by decide⟩

/-- Claim C7 (amended): when no two selected files collide on the same
output name, re-running the batch with skip-existing set and no new inputs
yields zero conversions, a skipped count equal to the first run's converted
plus skipped, and every file skipped by the second run still has its output
name listed among the produced paths. -/
theorem C7_amended (allF : Bool) (flt : Filters) (oracle : String → Bool)
    (files ex : List String)
    (hnd : ((selectFiles allF flt files).map outName).Nodup) :
    (convertFs allF flt true oracle files
      (convertFs allF flt true oracle files ex).2).1.converted = 0 ∧
    (convertFs allF flt true oracle files
      (convertFs allF flt true oracle files ex).2).1.skipped
      = (convertFs allF flt true oracle files ex).1.converted
        + (convertFs allF flt true oracle files ex).1.skipped ∧
    (∀ f, (f, Outcome.skippedO) ∈
        (runFiles true oracle (selectFiles allF flt files)
          (convertFs allF flt true oracle files ex).2).1 →
      outName f ∈ (convertFs allF flt true oracle files
          (convertFs allF flt true oracle files ex).2).1.saved) := by
  by_cases he : files.isEmpty = true
  · have hfe : files = [] := List.isEmpty_iff.mp he
    subst hfe
    have hsel : selectFiles allF flt ([] : List String) = [] := by
      cases allF <;> rfl
    refine ⟨rfl, rfl, ?_⟩
    intro f hf
    rw [hsel] at hf
    cases hf
  · by_cases hse : (selectFiles allF flt files).isEmpty = true
    · have hsel : selectFiles allF flt files = [] := List.isEmpty_iff.mp hse
      have h1 : ∀ E : List String, convertFs allF flt true oracle files E
          = (⟨false, 0, 0, files.length, [], []⟩, E) := by
        intro E
        unfold convertFs
        rw [if_neg he]
        simp [hse]
      rw [h1, h1]
      refine ⟨rfl, rfl, ?_⟩
      intro f hf
      rw [hsel] at hf
      cases hf
    · have hconv : ∀ E : List String, convertFs allF flt true oracle files E
          = (⟨decide (0 < convCount (runFiles true oracle (selectFiles allF flt files) E).1
                + skipCount (runFiles true oracle (selectFiles allF flt files) E).1),
              convCount (runFiles true oracle (selectFiles allF flt files) E).1,
              skipCount (runFiles true oracle (selectFiles allF flt files) E).1,
              files.length,
              savedPaths (runFiles true oracle (selectFiles allF flt files) E).1,
              failedFiles (runFiles true oracle (selectFiles allF flt files) E).1⟩,
             (runFiles true oracle (selectFiles allF flt files) E).2) := by
        intro E
        unfold convertFs
        rw [if_neg he]
        simp only [hse, Bool.false_eq_true, if_false]
      have hyp2 : ∀ f ∈ selectFiles allF flt files,
          outName f ∉ (runFiles true oracle (selectFiles allF flt files) ex).2 →
          oracle f = false := by
        intro f hf hnm
        obtain ⟨o, ho⟩ := runFiles_mem true oracle f (selectFiles allF flt files) ex hf
        obtain ⟨hfail, hok⟩ := runFiles_spec oracle (selectFiles allF flt files) ex hnd f o ho
        cases o with
        | failedO => exact (hfail rfl).1
        | skippedO => exact absurd (hok (fun hc => nomatch hc)) hnm
        | convertedO => exact absurd (hok (fun hc => nomatch hc)) hnm
      have hrun2 := runFiles_stable oracle (selectFiles allF flt files)
        (runFiles true oracle (selectFiles allF flt files) ex).2 hyp2
      have hcount1 : convCount (runFiles true oracle (selectFiles allF flt files) ex).1
            + skipCount (runFiles true oracle (selectFiles allF flt files) ex).1
          = ((selectFiles allF flt files).filter (fun f =>
              decide (outName f ∈ (runFiles true oracle (selectFiles allF flt files) ex).2))).length := by
        have hpq : ∀ x ∈ (runFiles true oracle (selectFiles allF flt files) ex).1,
            (fun p => decide (p.2 ≠ Outcome.failedO)) x
              = (fun f => decide (outName f ∈
                  (runFiles true oracle (selectFiles allF flt files) ex).2)) x.1 := by
          intro x hx
          have hx2 : (x.1, x.2) ∈ (runFiles true oracle (selectFiles allF flt files) ex).1 := by
            rwa [Prod.mk.eta]
          obtain ⟨hfail, hok⟩ :=
            runFiles_spec oracle (selectFiles allF flt files) ex hnd x.1 x.2 hx2
          by_cases ho : x.2 = Outcome.failedO
          · show decide (x.2 ≠ Outcome.failedO)
                = decide (outName x.1 ∈ (runFiles true oracle (selectFiles allF flt files) ex).2)
            rw [decide_eq_false (fun hcon => hcon ho),
                decide_eq_false (hfail ho).2]
          · show decide (x.2 ≠ Outcome.failedO)
                = decide (outName x.1 ∈ (runFiles true oracle (selectFiles allF flt files) ex).2)
            rw [decide_eq_true ho, decide_eq_true (hok ho)]
        have hfl := filter_length_congr
          (runFiles true oracle (selectFiles allF flt files) ex).1
          (fun p => decide (p.2 ≠ Outcome.failedO))
          (fun f => decide (outName f ∈
            (runFiles true oracle (selectFiles allF flt files) ex).2)) hpq
        rw [runFiles_names] at hfl
        rw [counts_nonfailed]
        exact hfl
      refine ⟨?_, ?_, ?_⟩
      · simp only [hconv]
        show convCount (runFiles true oracle (selectFiles allF flt files)
          (runFiles true oracle (selectFiles allF flt files) ex).2).1 = 0
        rw [hrun2]
        exact convCount_stable _ _
      · simp only [hconv]
        show skipCount (runFiles true oracle (selectFiles allF flt files)
            (runFiles true oracle (selectFiles allF flt files) ex).2).1
          = convCount (runFiles true oracle (selectFiles allF flt files) ex).1
            + skipCount (runFiles true oracle (selectFiles allF flt files) ex).1
        rw [hrun2]
        rw [skipCount_stable, hcount1]
      · intro f hf
        simp only [hconv] at hf ⊢
        show outName f ∈ savedPaths (runFiles true oracle (selectFiles allF flt files)
          (runFiles true oracle (selectFiles allF flt files) ex).2).1
        exact savedPaths_mem hf

/-- Claim C7 witness: on a two-file directory with distinct output names and
an always-succeeding conversion, the second run converts nothing and skips
both converted files. -/
theorem C7_witness :
    (convertFs true ⟨none, none, none⟩ true (fun _ => true) ["INMET_A.CSV", "INMET_B.CSV"]
      (convertFs true ⟨none, none, none⟩ true (fun _ => true)
        ["INMET_A.CSV", "INMET_B.CSV"] []).2).1.converted = 0 ∧
    (convertFs true ⟨none, none, none⟩ true (fun _ => true) ["INMET_A.CSV", "INMET_B.CSV"]
      (convertFs true ⟨none, none, none⟩ true (fun _ => true)
        ["INMET_A.CSV", "INMET_B.CSV"] []).2).1.skipped
      = (convertFs true ⟨none, none, none⟩ true (fun _ => true)
          ["INMET_A.CSV", "INMET_B.CSV"] []).1.converted
        + (convertFs true ⟨none, none, none⟩ true (fun _ => true)
          ["INMET_A.CSV", "INMET_B.CSV"] []).1.skipped :=
  ⟨(C7_amended true ⟨none, none, none⟩ (fun _ => true) ["INMET_A.CSV", "INMET_B.CSV"] []
      (by decide)).1,
   (C7_amended true ⟨none, none, none⟩ (fun _ => true) ["INMET_A.CSV", "INMET_B.CSV"] []
      (by decide)).2.1⟩

/-! ## Claim C8 -/

/-- Claim C8: when the processing of one selected file fails, the
orchestrator records that file in the failed list at its position and
processes every other file exactly as it would have without the failing
file, from the same filesystem state — the failure aborts nothing. -/
theorem C8_isolation (skipEx : Bool) (oracle : String → Bool) (pre post : List String)
    (f : String) (ex : List String)
    (hns : ¬(skipEx = true ∧ outName f ∈ (runFiles skipEx oracle pre ex).2))
    (hfail : oracle f = false) :
    (runFiles skipEx oracle (pre ++ f :: post) ex).1 =
      (runFiles skipEx oracle pre ex).1 ++ (f, Outcome.failedO) ::
        (runFiles skipEx oracle post (runFiles skipEx oracle pre ex).2).1 ∧
    f ∈ failedFiles (runFiles skipEx oracle (pre ++ f :: post) ex).1 ∧
    (runFiles skipEx oracle (pre ++ post) ex).1 =
      (runFiles skipEx oracle pre ex).1 ++
        (runFiles skipEx oracle post (runFiles skipEx oracle pre ex).2).1 ∧
    (runFiles skipEx oracle (pre ++ f :: post) ex).2 =
      (runFiles skipEx oracle (pre ++ post) ex).2 := by
  have hstep : stepFile skipEx oracle (runFiles skipEx oracle pre ex).2 f
      = (Outcome.failedO, (runFiles skipEx oracle pre ex).2) := by
    unfold stepFile
    rw [if_neg hns, if_neg (by rw [hfail]; exact Bool.false_ne_true)]
  have hmain := runFiles_append skipEx oracle pre (f :: post) ex
  have hpp := runFiles_append skipEx oracle pre post ex
  have hrun : runFiles skipEx oracle (f :: post) (runFiles skipEx oracle pre ex).2
      = ((f, Outcome.failedO)
          :: (runFiles skipEx oracle post (runFiles skipEx oracle pre ex).2).1,
         (runFiles skipEx oracle post (runFiles skipEx oracle pre ex).2).2) := by
    rw [runFiles_cons]
    rw [hstep]
  refine ⟨?_, ?_, ?_, ?_⟩
  · rw [hmain, hrun]
  · rw [hmain, hrun]
    show f ∈ failedFiles ((runFiles skipEx oracle pre ex).1 ++ (f, Outcome.failedO) ::
      (runFiles skipEx oracle post (runFiles skipEx oracle pre ex).2).1)
    unfold failedFiles
    rw [List.filterMap_append]
    apply List.mem_append_right
    apply List.mem_filterMap.mpr
    exact ⟨(f, Outcome.failedO), List.mem_cons_self _ _, by simp⟩
  · rw [hpp]
  · rw [hmain, hrun, hpp]

/-- Claim C8 witness: in a three-file batch whose middle file fails, the
failing file is recorded in the failed list while the others are processed. -/
theorem C8_witness :
    "B.CSV" ∈ failedFiles (runFiles true (fun g => !(g == "B.CSV"))
      (["A.CSV"] ++ "B.CSV" :: ["C.CSV"]) []).1 :=
  (C8_isolation true (fun g => !(g == "B.CSV")) ["A.CSV"] ["C.CSV"] "B.CSV" []
    (by decide) (by decide)).2.1

/-! ## Claim C10 -/

/-- Claim C10: a candidate file with fewer than five underscore-delimited
segments is silently excluded from the filtered selection — it receives no
outcome at all — while still being counted in the total found; with the
all-files flag it is selected, receives an outcome, and its identity is
extracted through the metadata-preamble fallback. -/
theorem C10_segments (flt : Filters) (skipEx : Bool) (oracle : String → Bool)
    (files ex : List String) (f : String)
    (hmem : f ∈ files) (hlen : (partsOf f).length < 5) :
    f ∉ selectFiles false flt files ∧
    (∀ o : Outcome, (f, o) ∉ (runFiles skipEx oracle (selectFiles false flt files) ex).1) ∧
    (convertFs false flt skipEx oracle files ex).1.totalFound = files.length ∧
    f ∈ selectFiles true flt files ∧
    (∃ o : Outcome, (f, o) ∈ (runFiles skipEx oracle (selectFiles true flt files) ex).1) ∧
    (∀ (md : List (String × String)) (i : StationIdentity),
      extractIdentity (partsOf f) md = some i →
        i.region = getDMeta md "REGIAO" "Unknown" ∧
        i.uf = getDMeta md "UF" "Unknown" ∧
        i.wmo = getDMeta md "CODIGO (WMO)" "Unknown" ∧
        i.station = getDMeta md "ESTACAO" "Unknown") := by
  have h5 : ¬(5 ≤ (partsOf f).length) := Nat.not_le.mpr hlen
  have hpf : passesFilters flt f = false := by
    unfold passesFilters
    simp only [decide_eq_false h5, Bool.false_and]
  have hnotsel : f ∉ selectFiles false flt files := by
    unfold selectFiles
    rw [if_neg (by exact fun hcon => nomatch hcon)]
    intro hc
    have := (List.mem_filter.mp hc).2
    rw [hpf] at this
    cases this
  refine ⟨hnotsel, ?_, ?_, ?_, ?_, ?_⟩
  · intro o ho
    apply hnotsel
    have : f ∈ ((runFiles skipEx oracle (selectFiles false flt files) ex).1).map Prod.fst :=
      List.mem_map.mpr ⟨(f, o), ho, rfl⟩
    rwa [runFiles_names] at this
  · have hne : ¬(files.isEmpty = true) := by
      cases files with
      | nil => cases hmem
      | cons a l => exact fun hcon => nomatch hcon
    unfold convertFs
    rw [if_neg hne]
    by_cases hsel : (selectFiles false flt files).isEmpty = true
    · simp [hsel]
    · simp [hsel]
  · unfold selectFiles
    rw [if_pos rfl]
    exact hmem
  · apply runFiles_mem
    unfold selectFiles
    rw [if_pos rfl]
    exact hmem
  · intro md i hi
    rcases hLA : (lookupMeta md "LATITUDE").bind parseCoord with _ | la <;>
      rcases hLO : (lookupMeta md "LONGITUDE").bind parseCoord with _ | lo <;>
      rcases hAL : (lookupMeta md "ALTITUDE").bind parseCoord with _ | al <;>
      simp only [extractIdentity, hLA, hLO, hAL, if_neg h5] at hi
    · cases hi
    · cases hi
    · cases hi
    · cases hi
    · cases hi
    · cases hi
    · cases hi
    · have hi2 := Option.some.inj hi
      rw [← hi2]
      exact ⟨rfl, rfl, rfl, rfl⟩

/-- Claim C10 witness: a two-segment file name is excluded under filtering
but selected when the all-files flag is set. -/
theorem C10_witness :
    "INMET_A.CSV" ∉ selectFiles false ⟨none, none, none⟩
      ["INMET_A.CSV", "INMET_N_PA_A001_BELEM_2024.CSV"] ∧
    "INMET_A.CSV" ∈ selectFiles true ⟨none, none, none⟩
      ["INMET_A.CSV", "INMET_N_PA_A001_BELEM_2024.CSV"] :=
  ⟨(C10_segments ⟨none, none, none⟩ true (fun _ => true)
      ["INMET_A.CSV", "INMET_N_PA_A001_BELEM_2024.CSV"] [] "INMET_A.CSV"
      (by decide) (by decide)).1,
   (C10_segments ⟨none, none, none⟩ true (fun _ => true)
      ["INMET_A.CSV", "INMET_N_PA_A001_BELEM_2024.CSV"] [] "INMET_A.CSV"
      (by decide) (by decide)).2.2.2.1⟩
